import Mathlib

/-!
# Verification of the `Runner` orchestration core (src/run.py)

Shallow embedding of the training/validation/test orchestration in
`src/run.py`: the gradient-step policy of `Runner.train`, the greedy
alignment-collapse of `Runner.greedyDecode`, best-validation-loss tracking and
early stopping, the validation-time consistency assertion, decoding-strategy
selection, checkpoint-format resolution, and the test/report pass.

Python floats are modelled by `ℚ`, with `float("inf")` as `⊤ : WithTop ℚ` and
NaN (the value of `np.mean([])`) as `none : Option ℚ`; any `<`-comparison
against NaN is `false`, as in IEEE and NumPy semantics. Tensors appear only
through the shapes and index sequences the orchestration code actually
inspects, so they are modelled as (nested) lists.
-/

namespace RunPy

/-! ## Gradient-step policy (`Runner.train`, lines 130–140) -/

/-- One in-place effect on the optimiser/gradients after `loss.backward()`. -/
inductive GradAction
  | clip
  | step
  | zeroGrad
deriving DecidableEq, Repr

/-- The exact sequence of optimiser effects executed after `loss.backward()`
for batch index `batchId` (zero-based) out of `datasetsize` batches, from
lines 130–140 of `src/run.py`:

```
if self.config.batchSize == 1:
    if batchId % 5 == 4 or batchId == datasetsize - 1:
        if self.config.clipNorm > 0: clip_grad_norm_(...)
        self.optimiser.step(); self.optimiser.zero_grad()
else:
    if self.config.clipNorm > 0: clip_grad_norm_(...)
    self.optimiser.step(); self.optimiser.zero_grad()
```
-/
def batchGradActions (batchSize : ℕ) (clipNorm : ℚ) (datasetsize batchId : ℕ) :
    List GradAction :=
  if batchSize = 1 then
    if batchId % 5 = 4 ∨ batchId = datasetsize - 1 then
      (if clipNorm > 0 then [GradAction.clip] else []) ++
        [GradAction.step, GradAction.zeroGrad]
    else []
  else
    (if clipNorm > 0 then [GradAction.clip] else []) ++
      [GradAction.step, GradAction.zeroGrad]

/-- Whether the optimiser steps on a given batch. -/
def stepsOn (batchSize : ℕ) (clipNorm : ℚ) (datasetsize batchId : ℕ) : Bool :=
  GradAction.step ∈ batchGradActions batchSize clipNorm datasetsize batchId

/-! ## Greedy collapse (`Runner.greedyDecode`, lines 166–182) -/

/-- The body of the collapse loop: `prev` is the last element appended to
`output` (`output[-1]`), and the remaining raw elements are scanned, skipping
those equal to the last appended element:

```
for char in raw_prediction[1:]:
    if char == output[-1]: continue
    else: output.append(char)
```
-/
def collapseFrom (prev : ℕ) : List ℕ → List ℕ
  | [] => []
  | c :: cs => if c = prev then collapseFrom prev cs else c :: collapseFrom c cs

/-- The per-element collapse of `Runner.greedyDecode`:
`previous = raw_prediction[0]; output = [previous]; ...`.
On an empty raw sequence, `raw_prediction[0]` raises `IndexError`,
modelled as `none`. -/
def collapse : List ℕ → Option (List ℕ)
  | [] => none
  | p :: rest => some (p :: collapseFrom p rest)

/-- Index (via `torch.max(..., dim=2)`) of the first maximal entry of a score row. -/
def argmaxIdx (scores : List ℚ) : ℕ :=
  (scores.foldl
    (fun acc v =>
      match acc with
      | (bestIdx, bestVal, i) =>
        if v > bestVal then (i, v, i + 1) else (bestIdx, bestVal, i + 1))
    ((0 : ℕ), (scores.headD 0, (0 : ℕ)))).1

/-- The raw prediction `list(max_index[:, i])`: the per-timestep arg-max class
index for batch element `i`. `predicted` is the (T, N, C) tensor as a list of
timesteps, each a list of per-element class-score rows. -/
def rawPrediction (predicted : List (List (List ℚ))) (i : ℕ) : List ℕ :=
  predicted.map (fun timestep => argmaxIdx (timestep.getD i []))

/-- Running a fallible body over a list, collecting results in order and
propagating failure, as the `for i in range(...)` loop does. -/
def traverseOpt {α β : Type} (f : α → Option β) : List α → Option (List β)
  | [] => some []
  | a :: t => (f a).bind (fun b => (traverseOpt f t).map (fun bs => b :: bs))

/-- The body of `Runner.greedyDecode`: for each batch element, collapse its arg-max index
sequence and decode it with the transcription encoder (abstracted as
`decodeFn`). `batchN` is `predicted.shape[1]`. `none` models the `IndexError`
raised when some element has an empty raw sequence. -/
def greedyDecode (decodeFn : List ℕ → String) (predicted : List (List (List ℚ)))
    (batchN : ℕ) : Option (List String) :=
  traverseOpt (fun i => (collapse (rawPrediction predicted i)).map decodeFn)
    (List.range batchN)

/-! ## Training state, validation result, and the epoch loop -/

/-- The configuration fields `Runner.train` and `Runner.validate` read.
`clipNorm` is a float; cadences, patience and warmup are integers used only
through `> 0`, `% = 0` and `≥` comparisons. -/
structure Config where
  batchSize : ℕ
  clipNorm : ℚ
  epochs : ℕ
  modelSaveEpoch : ℕ
  validationEpoch : ℕ
  earlyStoppingEpochCount : ℕ
  warmup : ℕ
deriving Repr

/-- The mutable best-validation state of `Runner`
(`self.bestValLoss`, `self.bestValLossEpoch`). -/
structure TrainState where
  bestValLoss : WithTop ℚ
  bestValLossEpoch : ℕ
deriving DecidableEq, Repr

/-- Initialisation `self.bestValLoss = float("inf"); self.bestValLossEpoch = 0`
(lines 93–94). -/
def initState : TrainState := ⟨⊤, 0⟩

/-- The value of `np.mean` on the list of batch losses: NaN (`none`) on an empty list,
the arithmetic mean otherwise. -/
def npMean (xs : List ℚ) : Option ℚ :=
  if xs = [] then none else some (xs.sum / xs.length)

/-- The function `Runner.validate` reduced to its return value: the `np.mean` of the
per-batch losses produced by the eval loader. -/
def validateResult (batchLosses : List ℚ) : Option ℚ :=
  npMean batchLosses

/-- Lines 153–157: `if valLoss < self.bestValLoss:` update `bestValLoss`,
`bestValLossEpoch`, and write the best-validation checkpoint. Returns the new
state and whether the checkpoint was written. A NaN `valLoss` (`none`)
compares `False` against anything, so nothing is updated. -/
def valUpdate (s : TrainState) (epoch : ℕ) (valLoss : Option ℚ) :
    TrainState × Bool :=
  match valLoss with
  | none => (s, false)
  | some q =>
    if (q : WithTop ℚ) < s.bestValLoss then (⟨(q : WithTop ℚ), epoch⟩, true)
    else (s, false)

/-- One validation event folded into the state (checkpoint flag dropped). -/
def valStep (s : TrainState) (p : ℕ × Option ℚ) : TrainState :=
  (valUpdate s p.1 p.2).1

/-- Folding a whole run of validation events over the initial state. -/
def runVals (ps : List (ℕ × Option ℚ)) : TrainState :=
  ps.foldl valStep initState

/-- Lines 158–162: the early-stopping test evaluated after the (possible)
validation update of `epoch`:

```
if self.config.earlyStoppingEpochCount > 0 and epoch > self.config.warmup:
    if epoch - self.bestValLossEpoch >= self.config.earlyStoppingEpochCount:
        break
```
-/
def earlyStopCheck (cfg : Config) (epoch : ℕ) (s : TrainState) : Prop :=
  cfg.earlyStoppingEpochCount > 0 ∧ epoch > cfg.warmup ∧
    (epoch : ℤ) - s.bestValLossEpoch ≥ cfg.earlyStoppingEpochCount

instance (cfg : Config) (epoch : ℕ) (s : TrainState) :
    Decidable (earlyStopCheck cfg epoch s) := by
  unfold earlyStopCheck
  infer_instance

/-- The validation block of one epoch (lines 151–157): validation runs when
the cadence is positive and divides the epoch; `valLoss e` is the result the
eval pass would return at epoch `e`. Returns the new state and the epoch
number if the best-validation checkpoint was written. -/
def epochValidation (cfg : Config) (valLoss : ℕ → Option ℚ) (epoch : ℕ)
    (s : TrainState) : TrainState × Option ℕ :=
  if cfg.validationEpoch > 0 ∧ epoch % cfg.validationEpoch = 0 then
    let r := valUpdate s epoch (valLoss epoch)
    (r.1, if r.2 then some epoch else none)
  else (s, none)

/-- Result of the epoch loop: final state, epochs at which the
best-validation checkpoint was written (in order), and the epoch at which the
loop broke early, if any. -/
structure LoopResult where
  state : TrainState
  ckptWrites : List ℕ
  stoppedAt : Option ℕ
deriving DecidableEq, Repr

/-- The write events of one epoch's validation block as a list. -/
def optToList : Option ℕ → List ℕ
  | some w => [w]
  | none => []

/-- The epoch loop of `Runner.train` restricted to the state it mutates:
process each epoch's validation block, then test early stopping and `break`
when it fires. -/
def runEpochs (cfg : Config) (valLoss : ℕ → Option ℚ) :
    List ℕ → TrainState → LoopResult
  | [], s => ⟨s, [], none⟩
  | e :: rest, s =>
    if earlyStopCheck cfg e (epochValidation cfg valLoss e s).1 then
      ⟨(epochValidation cfg valLoss e s).1,
        optToList (epochValidation cfg valLoss e s).2, some e⟩
    else
      ⟨(runEpochs cfg valLoss rest (epochValidation cfg valLoss e s).1).state,
        optToList (epochValidation cfg valLoss e s).2 ++
          (runEpochs cfg valLoss rest
            (epochValidation cfg valLoss e s).1).ckptWrites,
        (runEpochs cfg valLoss rest
          (epochValidation cfg valLoss e s).1).stoppedAt⟩

/-- The loop header `for epoch in range(1, self.config.epochs + 1)` driving the loop from the
freshly initialised state. -/
def train (cfg : Config) (valLoss : ℕ → Option ℚ) : LoopResult :=
  runEpochs cfg valLoss ((List.range cfg.epochs).map (· + 1)) initState

/-! ## Validation-time target flattening and the consistency assertion
    (`Runner.validate`, lines 192–213) -/

/-- Clamping `safe_target_lengths = torch.clamp(target_lengths, max=max_label_len)`. -/
def clampLengths (maxLabelLen : ℕ) (lengths : List ℕ) : List ℕ :=
  lengths.map (fun l => min l maxLabelLen)

/-- Flattening `torch.cat([transcriptionTensor[i, :lengths[i]] for i in range(N)])`:
row `i` of the padded label tensor truncated to `lengths[i]`, all
concatenated. Rows and lengths are paired positionally. -/
def flattenTargets (rows : List (List ℤ)) (lengths : List ℕ) : List ℤ :=
  ((rows.zip lengths).map (fun p => p.1.take p.2)).flatten

/-- The validation batch target construction followed by the assertion
`assert encodedTranscription.size(0) == safe_target_lengths.sum().item()`.
`maxLabelLen` is `transcriptionTensor.size(1)`. An `Except.error` models the
`AssertionError` aborting the run. -/
def validateBatchTargets (rows : List (List ℤ)) (maxLabelLen : ℕ)
    (lengths : List ℕ) : Except String (List ℤ) :=
  let safe := clampLengths maxLabelLen lengths
  let encodedTranscription := flattenTargets rows safe
  if encodedTranscription.length = safe.sum then Except.ok encodedTranscription
  else Except.error ("Mismatch")

/-! ## Decoding-strategy selection (`Runner.__init__`, lines 85–88) -/

/-- The decoding functions the runner can install. -/
inductive DecodeStrategy
  | greedy
deriving DecidableEq, Repr

/-- Lines 85–88: `self.decode = self.greedyDecode` on both branches of
`if self.config.decodingMethod == DecodingMethod.GREEDY`. `M` is the
(external) enumeration of configured decoding methods, `greedyMethod` its
`GREEDY` member. -/
def selectDecode {M : Type} [DecidableEq M] (greedyMethod : M) (m : M) :
    DecodeStrategy :=
  if m = greedyMethod then DecodeStrategy.greedy else DecodeStrategy.greedy

/-! ## Checkpoint loading (`Runner.__init__`, lines 39–46) -/

/-- A value stored in a loaded checkpoint: a tensor, or a nested mapping
(as `torch.load` can return either payload). -/
inductive PyVal
  | tensor (data : List ℚ)
  | dict (entries : List (String × PyVal))

/-- Python `k in d.keys()` for an association-list dict. -/
def hasKey (d : List (String × PyVal)) (k : String) : Bool :=
  (d.map Prod.fst).contains k

/-- Python `d[k]`: the first binding of `k` (dict keys are unique). -/
def getItem (d : List (String × PyVal)) (k : String) : Option PyVal :=
  (d.find? (fun p => p.1 = k)).map Prod.snd

/-- Lines 42–44: `if 'model_state_dict' in state_dict.keys(): state_dict =
state_dict['model_state_dict']`, then `self.model.load_state_dict(state_dict)`.
The result is the mapping actually applied to the model; `Except.error` models
the runtime failure of `load_state_dict` on a non-mapping payload. -/
def resolveStateDict (state_dict : List (String × PyVal)) :
    Except String (List (String × PyVal)) :=
  if hasKey state_dict ("model_state_dict") then
    match getItem state_dict ("model_state_dict") with
    | some (PyVal.dict inner) => Except.ok inner
    | _ => Except.error ("TypeError")
  else Except.ok state_dict

/-- The evaluation-mode selector of `Runner.__init__`. -/
inductive EvalMode
  | NONE
  | VALIDATION
  | TEST
deriving DecidableEq, Repr

/-- Lines 39–44: the state dict applied at construction: nothing in `NONE`
mode, otherwise the resolved checkpoint contents. -/
def loadedStateDict (evalMode : EvalMode) (ckpt : List (String × PyVal)) :
    Option (Except String (List (String × PyVal))) :=
  if evalMode ≠ EvalMode.NONE then some (resolveStateDict ckpt) else none

/-! ## Test / report pass (`Runner.test`, lines 240–280) -/

/-- One transliteration record (line 265–267). -/
structure Translit where
  greedy : String
  expected : String
  expected_encoded : String
  image_name : String
deriving DecidableEq, Repr

/-- The per-batch data `Runner.test` reads: the decoded results of
`self.decode(predicted)`, the plaintext transcriptions, and the image names. -/
structure TestBatch where
  results : List String
  plaintexts : List String
  imageNames : List String
deriving Repr

/-- Lines 259–267: `for idx in range(min(len(results), len(plaintextTranscription)))`,
building one record per index. `replace` is the transcription encoder's
normalisation routine. -/
def batchRecords (replace : String → String) (b : TestBatch) : List Translit :=
  (List.range (min b.results.length b.plaintexts.length)).map (fun idx =>
    { greedy := b.results.getD idx ("")
      expected := b.plaintexts.getD idx ("")
      expected_encoded := replace (b.plaintexts.getD idx (""))
      image_name := b.imageNames.getD idx ("") })

/-- The full ordered list of transliteration records accumulated over all
batches of the eval loader. -/
def testRecords (replace : String → String) (batches : List TestBatch) :
    List Translit :=
  (batches.map (batchRecords replace)).flatten

/-- The JSON write at lines 279–280:
`json.dump(transliterations, outFile, indent=4, ensure_ascii=False)`. -/
structure ReportWrite where
  records : List Translit
  indent : ℕ
  ensure_ascii : Bool
deriving Repr

/-- The function `Runner.test` reduced to its externally visible output: the report file
contents and serialisation options. -/
def testReport (replace : String → String) (batches : List TestBatch) :
    ReportWrite :=
  { records := testRecords replace batches
    indent := 4
    ensure_ascii := false }

/-- The cumulative effect of the epoch loop on the training state, ignoring
the break: fold the per-epoch validation block over a list of epochs. -/
def foldEpochs (cfg : Config) (valLoss : ℕ → Option ℚ) (es : List ℕ)
    (s : TrainState) : TrainState :=
  es.foldl (fun t e => (epochValidation cfg valLoss e t).1) s

/-- The early-stopping scenario of the spec: patience 2, warmup 0, validation
every epoch, 10 configured epochs (batch size and the unused cadences are
immaterial to the loop state). -/
def patienceScenarioCfg : Config := ⟨1, 0, 10, 0, 1, 2, 0⟩

/-- Validation losses realising "best epoch 4, no improvement at epochs 5
and 6": strictly improving up to epoch 4, flat afterwards. -/
def patienceScenarioLosses : ℕ → Option ℚ
  | 1 => some 10
  | 2 => some 9
  | 3 => some 9
  | 4 => some 8
  | 5 => some 9
  | 6 => some 9
  | _ => none

/-! ## Helper lemmas -/

theorem stepsOn_one (c : ℚ) (n i : ℕ) :
    stepsOn 1 c n i = decide (i % 5 = 4 ∨ i = n - 1) := by
  unfold stepsOn batchGradActions
  split_ifs with h1 h2 <;> simp_all

theorem stepsOn_other (bs : ℕ) (hbs : bs ≠ 1) (c : ℚ) (n i : ℕ) :
    stepsOn bs c n i = true := by
  unfold stepsOn batchGradActions
  simp [hbs]

theorem batchGradActions_of_step (bs : ℕ) (c : ℚ) (n i : ℕ)
    (h : stepsOn bs c n i = true) :
    batchGradActions bs c n i =
      (if c > 0 then [GradAction.clip] else []) ++
        [GradAction.step, GradAction.zeroGrad] := by
  unfold stepsOn at h
  unfold batchGradActions at h ⊢
  split_ifs at h ⊢ <;> simp_all

theorem collapseFrom_destutter (l : List ℕ) :
    ∀ a, a :: collapseFrom a l = l.destutter' (· ≠ ·) a := by
  induction l with
  | nil => intro a; simp [collapseFrom]
  | cons b rest ih =>
    intro a
    by_cases h : b = a
    · subst h
      simp [collapseFrom, List.destutter'_cons, ih]
    · simp [collapseFrom, h, List.destutter'_cons, Ne.symm h, ih]

theorem collapse_eq_destutter (a : ℕ) (l : List ℕ) :
    collapse (a :: l) = some ((a :: l).destutter (· ≠ ·)) := by
  simp [collapse, List.destutter_cons', collapseFrom_destutter]

/-! ## Claim theorems and witnesses -/

/-- Claim C1: with batch size 1 the optimiser steps exactly on batches whose
zero-based index `i` satisfies `i % 5 = 4` or `i = datasetsize - 1`; over 7
batches that is exactly indices 4 and 6; with any other batch size it steps
on every batch; and whenever it steps, gradient clipping precedes the step
exactly when `clipNorm > 0`, with the gradient zeroing following the step. -/
theorem C1_gradient_step_policy :
    (∀ (c : ℚ) (n i : ℕ), i < n →
      (stepsOn 1 c n i = true ↔ (i % 5 = 4 ∨ i = n - 1))) ∧
    (∀ c : ℚ, (List.range 7).filter (fun i => stepsOn 1 c 7 i) = [4, 6]) ∧
    (∀ bs : ℕ, bs ≠ 1 → ∀ (c : ℚ) (n i : ℕ), stepsOn bs c n i = true) ∧
    (∀ (bs : ℕ) (c : ℚ) (n i : ℕ), stepsOn bs c n i = true →
      batchGradActions bs c n i =
        (if c > 0 then [GradAction.clip] else []) ++
          [GradAction.step, GradAction.zeroGrad]) := by
  refine ⟨fun c n i _ => ?_, fun c => ?_, stepsOn_other, batchGradActions_of_step⟩
  · rw [stepsOn_one]
    simp
  · simp only [stepsOn_one]
    decide

/-- Concrete instantiation of C1: batch index 4 of 7 steps, the filter over 7
batches is `[4, 6]`, batch size 2 steps on batch 3, and with `clipNorm = 1`
the action order is clip, step, zero-grad. -/
theorem C1_witness :
    (stepsOn 1 0 7 4 = true ↔ (4 % 5 = 4 ∨ 4 = 7 - 1)) ∧
    (List.range 7).filter (fun i => stepsOn 1 0 7 i) = [4, 6] ∧
    stepsOn 2 0 7 3 = true ∧
    batchGradActions 2 1 7 3 =
      [GradAction.clip, GradAction.step, GradAction.zeroGrad] := by
  refine ⟨C1_gradient_step_policy.1 0 7 4 (by decide),
    C1_gradient_step_policy.2.1 0,
    C1_gradient_step_policy.2.2.1 2 (by decide) 0 7 3, ?_⟩
  have h := C1_gradient_step_policy.2.2.2 2 1 7 3
    (C1_gradient_step_policy.2.2.1 2 (by decide) 1 7 3)
  rw [h]
  norm_num

/-- Claim C2: the collapse of `greedyDecode` merges adjacent duplicates only:
on any non-empty raw sequence it equals `List.destutter (· ≠ ·)` (drop each
element equal to its immediate predecessor, keep non-adjacent repeats), the
result is a sublist with no two adjacent equal elements, collapsing is
idempotent, and `[2,2,5,5,5,0,7,7]` collapses to `[2,5,0,7]`, which collapses
to itself. -/
theorem C2_collapse_adjacent_duplicates :
    (∀ (a : ℕ) (l : List ℕ),
      collapse (a :: l) = some ((a :: l).destutter (· ≠ ·))) ∧
    (∀ (l out : List ℕ), collapse l = some out →
      out.Sublist l ∧ List.Chain' (· ≠ ·) out) ∧
    (∀ (l out : List ℕ), collapse l = some out → collapse out = some out) ∧
    collapse [2, 2, 5, 5, 5, 0, 7, 7] = some [2, 5, 0, 7] ∧
    collapse [2, 5, 0, 7] = some [2, 5, 0, 7] := by
  have key : ∀ (l out : List ℕ), collapse l = some out →
      out = l.destutter (· ≠ ·) := by
    intro l out h
    cases l with
    | nil => exact absurd h (by simp [collapse])
    | cons a t =>
      rw [collapse_eq_destutter] at h
      exact (Option.some_inj.mp h).symm
  refine ⟨collapse_eq_destutter, fun l out h => ?_, fun l out h => ?_,
    by decide, by decide⟩
  · rw [key l out h]
    exact ⟨List.destutter_sublist _ _, List.destutter_is_chain' _ _⟩
  · have hchain : List.Chain' (· ≠ ·) out := by
      rw [key l out h]
      exact List.destutter_is_chain' _ _
    cases hout : out with
    | nil =>
      cases l with
      | nil => exact absurd h (by simp [collapse])
      | cons a t => rw [collapse_eq_destutter] at h; simp_all
    | cons c m =>
      rw [← hout, ]
      cases l with
      | nil => exact absurd h (by simp [collapse])
      | cons a t =>
        rw [hout] at hchain ⊢
        rw [collapse_eq_destutter, List.destutter_of_chain' _ _ hchain]

/-- Concrete instantiation of C2: collapsing the already-collapsed
`[2,5,0,7]` yields it again. -/
theorem C2_witness :
    collapse ([2, 5, 0, 7] : List ℕ) = some [2, 5, 0, 7] :=
  C2_collapse_adjacent_duplicates.2.2.1 [2, 2, 5, 5, 5, 0, 7, 7] [2, 5, 0, 7]
    (by decide)

theorem flattenTargets_length (rows : List (List ℤ)) :
    ∀ (lens : List ℕ), rows.length = lens.length →
      (∀ p ∈ rows.zip lens, p.2 ≤ p.1.length) →
      (flattenTargets rows lens).length = lens.sum := by
  induction rows with
  | nil =>
    intro lens hlen _
    have : lens = [] := by
      cases lens with
      | nil => rfl
      | cons a t => simp at hlen
    subst this
    rfl
  | cons r rs ih =>
    intro lens hlen hle
    cases lens with
    | nil => simp at hlen
    | cons l ls =>
      have hr : l ≤ r.length := hle (r, l) (by simp)
      have hrec := ih ls (by simpa using hlen)
        (fun p hp => hle p (by simp [hp]))
      simp only [flattenTargets, List.zip_cons_cons, List.map_cons,
        List.flatten_cons, List.length_append, List.sum_cons] at hrec ⊢
      rw [List.length_take, Nat.min_eq_left hr, hrec]

/-- Claim C5: in `Runner.validate`, for every batch whose padded label tensor
has `rows.length` rows of width `maxLabelLen`, the flattened target's length
equals the sum of the clamped per-example lengths, so the assertion passes;
and on any input where that equality fails, the batch computation aborts with
the fatal consistency error. -/
theorem C5_validation_consistency :
    (∀ (rows : List (List ℤ)) (maxLabelLen : ℕ) (lengths : List ℕ),
      (∀ r ∈ rows, r.length = maxLabelLen) →
      rows.length = lengths.length →
      (flattenTargets rows (clampLengths maxLabelLen lengths)).length =
          (clampLengths maxLabelLen lengths).sum ∧
        validateBatchTargets rows maxLabelLen lengths =
          Except.ok (flattenTargets rows (clampLengths maxLabelLen lengths))) ∧
    (∀ (rows : List (List ℤ)) (maxLabelLen : ℕ) (lengths : List ℕ),
      (flattenTargets rows (clampLengths maxLabelLen lengths)).length ≠
          (clampLengths maxLabelLen lengths).sum →
      validateBatchTargets rows maxLabelLen lengths =
        Except.error ("Mismatch")) := by
  constructor
  · intro rows maxLabelLen lengths hw hlen
    have hsum : (flattenTargets rows (clampLengths maxLabelLen lengths)).length =
        (clampLengths maxLabelLen lengths).sum := by
      apply flattenTargets_length
      · simpa [clampLengths] using hlen
      · intro p hp
        have h1 := List.of_mem_zip hp
        have hr := hw p.1 h1.1
        have hl : p.2 ∈ clampLengths maxLabelLen lengths := h1.2
        simp only [clampLengths, List.mem_map] at hl
        obtain ⟨l, _, hlp⟩ := hl
        rw [← hlp, hr]
        exact min_le_right _ _
    exact ⟨hsum, by simp [validateBatchTargets, hsum]⟩
  · intro rows maxLabelLen lengths hne
    simp [validateBatchTargets, hne]

/-- Concrete instantiation of C5: a 2-row batch of width 3 with lengths
`[2, 5]` (the second clamped to 3) passes the assertion with flattened length
5, and a corrupted length equality yields the fatal error. -/
theorem C5_witness :
    (flattenTargets [[1, 2, 3], [4, 5, 6]] (clampLengths 3 [2, 5])).length =
        (clampLengths 3 [2, 5]).sum ∧
      validateBatchTargets [[1, 2, 3], [4, 5, 6]] 3 [2, 5] =
        Except.ok [1, 2, 4, 5, 6] :=
  have h := C5_validation_consistency.1 [[1, 2, 3], [4, 5, 6]] 3 [2, 5]
    (by decide) (by decide)
  ⟨h.1, by rw [h.2]; rfl⟩

/-- Claim C6: both branches of the decoding-method selection install the
greedy decoder, so every configured method yields exactly the same decoding
behaviour as configuring greedy. -/
theorem C6_decode_selection {M : Type} [DecidableEq M] (greedyMethod m : M) :
    selectDecode greedyMethod m = DecodeStrategy.greedy ∧
      selectDecode greedyMethod m = selectDecode greedyMethod greedyMethod := by
  unfold selectDecode
  constructor
  · split_ifs <;> rfl
  · split_ifs <;> rfl

/-- Claim C7: in `VALIDATION` or `TEST` mode, a checkpoint without the
`model_state_dict` key is applied to the model as-is, while a checkpoint
whose `model_state_dict` key holds an inner mapping has that inner mapping
applied; in `NONE` mode no checkpoint is loaded at all. -/
theorem C7_checkpoint_formats :
    (∀ ckpt : List (String × PyVal),
      loadedStateDict EvalMode.NONE ckpt = none) ∧
    (∀ m : EvalMode, m ≠ EvalMode.NONE →
      ∀ d : List (String × PyVal), hasKey d ("model_state_dict") = false →
        loadedStateDict m d = some (Except.ok d)) ∧
    (∀ m : EvalMode, m ≠ EvalMode.NONE →
      ∀ (d inner : List (String × PyVal)),
        getItem d ("model_state_dict") = some (PyVal.dict inner) →
        loadedStateDict m d = some (Except.ok inner)) := by
  refine ⟨fun ckpt => by simp [loadedStateDict], ?_, ?_⟩
  · intro m hm d hno
    simp [loadedStateDict, hm, resolveStateDict, hno]
  · intro m hm d inner hget
    have hkey : hasKey d ("model_state_dict") = true := by
      unfold getItem at hget
      cases hf : List.find? (fun p => decide (p.1 = "model_state_dict")) d with
      | none => rw [hf] at hget; simp at hget
      | some p =>
        have hmem := List.mem_of_find?_eq_some hf
        have hpk : p.1 = "model_state_dict" := by
          simpa using List.find?_some hf
        simp [hasKey]
        refine ⟨p.2, ?_⟩
        rw [← hpk]
        simpa using hmem
    simp [loadedStateDict, hm, resolveStateDict, hkey, hget]

/-- Concrete instantiation of C7: no load in `NONE` mode; the flat checkpoint
`[("w", tensor [1])]` is applied as-is in `TEST` mode; and the wrapped
checkpoint has its inner mapping applied in `VALIDATION` mode. -/
theorem C7_witness :
    loadedStateDict EvalMode.NONE [("w", PyVal.tensor [1])] = none ∧
    loadedStateDict EvalMode.TEST [("w", PyVal.tensor [1])] =
      some (Except.ok [("w", PyVal.tensor [1])]) ∧
    loadedStateDict EvalMode.VALIDATION
        [("model_state_dict", PyVal.dict [("w", PyVal.tensor [1])])] =
      some (Except.ok [("w", PyVal.tensor [1])]) :=
  ⟨C7_checkpoint_formats.1 [("w", PyVal.tensor [1])],
    C7_checkpoint_formats.2.1 EvalMode.TEST (by simp) [("w", PyVal.tensor [1])]
      (by rfl),
    C7_checkpoint_formats.2.2 EvalMode.VALIDATION (by simp)
      [("model_state_dict", PyVal.dict [("w", PyVal.tensor [1])])]
      [("w", PyVal.tensor [1])] (by rfl)⟩

/-- Claim C8: the test pass accumulates, per batch, one transliteration record
per index below the minimum of the decoded-results count and the plaintext
count, with fields greedy, expected, encoder-normalised expected, and image
name, and the report written at the end is the ordered concatenation of those
records as a JSON array with 4-space indentation and `ensure_ascii` off. -/
theorem C8_test_report (replace : String → String) (batches : List TestBatch) :
    (testReport replace batches).records =
        (batches.map (batchRecords replace)).flatten ∧
    (testReport replace batches).indent = 4 ∧
    (testReport replace batches).ensure_ascii = false ∧
    (∀ b : TestBatch, (batchRecords replace b).length =
        min b.results.length b.plaintexts.length) ∧
    (∀ (b : TestBatch) (idx : ℕ),
      idx < min b.results.length b.plaintexts.length →
      (batchRecords replace b)[idx]? =
        some { greedy := b.results.getD idx ("")
               expected := b.plaintexts.getD idx ("")
               expected_encoded := replace (b.plaintexts.getD idx (""))
               image_name := b.imageNames.getD idx ("") }) := by
  refine ⟨rfl, rfl, rfl, fun b => by simp [batchRecords], ?_⟩
  intro b idx hidx
  simp [batchRecords, List.getElem?_map, List.getElem?_range hidx]

/-- Concrete instantiation of C8: a batch with two decoded results but one
plaintext yields exactly one record, with the normalisation applied. -/
theorem C8_witness :
    (batchRecords (fun s => s ++ "!")
        ⟨["ab", "cd"], ["xy"], ["img0"]⟩)[0]? =
      some { greedy := "ab", expected := "xy", expected_encoded := "xy!",
             image_name := "img0" } :=
  (C8_test_report (fun s => s ++ "!") []).2.2.2.2
    ⟨["ab", "cd"], ["xy"], ["img0"]⟩ 0 (by decide)

theorem ratTwoPointFive : (5/2 : ℚ) = ⟨5, 2, by decide, by decide⟩ := by
  rw [Rat.mk'_eq_divInt, Rat.divInt_eq_div]
  norm_num

theorem ratTwoPointSix : (13/5 : ℚ) = ⟨13, 5, by decide, by decide⟩ := by
  rw [Rat.mk'_eq_divInt, Rat.divInt_eq_div]
  norm_num

theorem ratTwoPointFour : (12/5 : ℚ) = ⟨12, 5, by decide, by decide⟩ := by
  rw [Rat.mk'_eq_divInt, Rat.divInt_eq_div]
  norm_num

theorem valStep_bestValLoss (hd : ℕ × ℚ) (s : TrainState) :
    (valStep s (hd.1, some hd.2)).bestValLoss =
      min s.bestValLoss ((hd.2 : ℚ) : WithTop ℚ) := by
  by_cases h : ((hd.2 : ℚ) : WithTop ℚ) < s.bestValLoss
  · simp [valStep, valUpdate, h, min_eq_right (le_of_lt h)]
  · simp [valStep, valUpdate, h, min_eq_left (not_lt.mp h)]

theorem foldl_valStep_bestValLoss (ps : List (ℕ × ℚ)) :
    ∀ s : TrainState,
      ((ps.map (fun p => (p.1, some p.2))).foldl valStep s).bestValLoss =
        ps.foldl (fun b p => min b ((p.2 : ℚ) : WithTop ℚ)) s.bestValLoss := by
  induction ps with
  | nil => intro s; rfl
  | cons hd tl ih =>
    intro s
    simp only [List.map_cons, List.foldl_cons]
    rw [ih]
    rw [valStep_bestValLoss hd s]

/-- Claim C3: `bestValLoss` starts at `+∞` and `bestValLossEpoch` at `0`;
after a validation pass the pair is updated (and the best checkpoint written)
exactly when the loss is strictly below the current best, so the final best
loss is the running minimum of the validation losses; on losses
`[3, 2.5, 2.6, 2.4]` at epochs `[1, 2, 3, 4]` the final state is
`(2.4, 4)`. -/
theorem C3_best_validation_tracking :
    initState = ⟨⊤, 0⟩ ∧
    (∀ (s : TrainState) (e : ℕ) (q : ℚ),
      ((q : WithTop ℚ) < s.bestValLoss →
        valUpdate s e (some q) = (⟨(q : WithTop ℚ), e⟩, true)) ∧
      (¬ (q : WithTop ℚ) < s.bestValLoss →
        valUpdate s e (some q) = (s, false))) ∧
    (∀ ps : List (ℕ × ℚ),
      (runVals (ps.map (fun p => (p.1, some p.2)))).bestValLoss =
        ps.foldl (fun b p => min b ((p.2 : ℚ) : WithTop ℚ)) ⊤) ∧
    runVals [(1, some 3), (2, some (5/2)), (3, some (13/5)),
        (4, some (12/5))] =
      ⟨((12 : ℚ)/5 : ℚ), 4⟩ := by
  refine ⟨rfl, fun s e q => ⟨fun h => ?_, fun h => ?_⟩, fun ps => ?_, ?_⟩
  · simp [valUpdate, h]
  · simp [valUpdate, h]
  · exact foldl_valStep_bestValLoss ps initState
  · rw [ratTwoPointFive, ratTwoPointSix, ratTwoPointFour]
    decide

/-- Concrete instantiation of C3: a loss of 2 strictly below the current best
3 updates the state and writes the checkpoint; a repeat of the best does
not. -/
theorem C3_witness :
    valUpdate ⟨((3 : ℚ) : WithTop ℚ), 7⟩ 9 (some 2) =
        (⟨((2 : ℚ) : WithTop ℚ), 9⟩, true) ∧
      valUpdate ⟨((2 : ℚ) : WithTop ℚ), 9⟩ 10 (some 2) =
        (⟨((2 : ℚ) : WithTop ℚ), 9⟩, false) :=
  ⟨(C3_best_validation_tracking.2.1 ⟨((3 : ℚ) : WithTop ℚ), 7⟩ 9 2).1
      (by decide),
    (C3_best_validation_tracking.2.1 ⟨((2 : ℚ) : WithTop ℚ), 9⟩ 10 2).2
      (by decide)⟩

theorem runEpochs_stoppedAt_some (cfg : Config) (v : ℕ → Option ℚ) :
    ∀ (es : List ℕ) (s : TrainState) (e : ℕ),
      (runEpochs cfg v es s).stoppedAt = some e →
      ∃ pre post, es = pre ++ e :: post ∧
        earlyStopCheck cfg e (foldEpochs cfg v (pre ++ [e]) s) ∧
        ∀ (p1 : List ℕ) (e' : ℕ) (p2 : List ℕ), pre = p1 ++ e' :: p2 →
          ¬ earlyStopCheck cfg e' (foldEpochs cfg v (p1 ++ [e']) s) := by
  intro es
  induction es with
  | nil => intro s e h; simp [runEpochs] at h
  | cons a rest ih =>
    intro s e h
    by_cases hc : earlyStopCheck cfg a (epochValidation cfg v a s).1
    · rw [runEpochs, if_pos hc] at h
      simp only at h
      obtain rfl : a = e := Option.some_inj.mp h
      refine ⟨[], rest, rfl, hc, ?_⟩
      intro p1 e' p2 hdec
      exact absurd hdec (by simp)
    · rw [runEpochs, if_neg hc] at h
      simp only at h
      obtain ⟨pre, post, hsplit, hstop, hfail⟩ :=
        ih (epochValidation cfg v a s).1 e h
      refine ⟨a :: pre, post, by rw [hsplit]; rfl, hstop, ?_⟩
      intro p1 e' p2 hdec
      cases p1 with
      | nil =>
        injection hdec with h1 h2
        subst h1
        exact hc
      | cons b p1t =>
        have hb : b = a ∧ pre = p1t ++ e' :: p2 := by
          injection hdec with h1 h2
          exact ⟨h1.symm, h2⟩
        obtain ⟨rfl, hpre⟩ := hb
        exact hfail p1t e' p2 hpre

theorem runEpochs_stoppedAt_none (cfg : Config) (v : ℕ → Option ℚ) :
    ∀ (es : List ℕ) (s : TrainState),
      (runEpochs cfg v es s).stoppedAt = none →
      ∀ (p1 : List ℕ) (e : ℕ) (p2 : List ℕ), es = p1 ++ e :: p2 →
        ¬ earlyStopCheck cfg e (foldEpochs cfg v (p1 ++ [e]) s) := by
  intro es
  induction es with
  | nil =>
    intro s _ p1 e p2 hdec
    exact absurd hdec (by simp)
  | cons a rest ih =>
    intro s h p1 e p2 hdec
    by_cases hc : earlyStopCheck cfg a (epochValidation cfg v a s).1
    · rw [runEpochs, if_pos hc] at h
      simp only at h
      exact absurd h (by simp)
    · rw [runEpochs, if_neg hc] at h
      simp only at h
      cases p1 with
      | nil =>
        obtain ⟨rfl, _⟩ : a = e ∧ rest = p2 := by
          injection hdec with h1 h2
          exact ⟨h1, h2⟩
        exact hc
      | cons b p1t =>
        injection hdec with h1 h2
        subst h1
        exact ih (epochValidation cfg v a s).1 h p1t e p2 h2

/-- Claim C4: the loop breaks exactly at the first processed epoch whose
post-validation state satisfies the early-stopping test (positive patience,
epoch beyond the warmup, and at least `patience` epochs since
`bestValLossEpoch`); in the scenario with patience 2, warmup 0, best epoch 4
and no improvement at epochs 5 and 6, the loop stops at epoch 6. -/
theorem C4_early_stopping :
    (∀ (cfg : Config) (v : ℕ → Option ℚ) (es : List ℕ) (s : TrainState)
        (e : ℕ), (runEpochs cfg v es s).stoppedAt = some e →
      ∃ pre post, es = pre ++ e :: post ∧
        earlyStopCheck cfg e (foldEpochs cfg v (pre ++ [e]) s) ∧
        ∀ (p1 : List ℕ) (e' : ℕ) (p2 : List ℕ), pre = p1 ++ e' :: p2 →
          ¬ earlyStopCheck cfg e' (foldEpochs cfg v (p1 ++ [e']) s)) ∧
    (∀ (cfg : Config) (v : ℕ → Option ℚ) (es : List ℕ) (s : TrainState),
      (runEpochs cfg v es s).stoppedAt = none →
      ∀ (p1 : List ℕ) (e : ℕ) (p2 : List ℕ), es = p1 ++ e :: p2 →
        ¬ earlyStopCheck cfg e (foldEpochs cfg v (p1 ++ [e]) s)) ∧
    (train patienceScenarioCfg patienceScenarioLosses).stoppedAt = some 6 ∧
    (train patienceScenarioCfg patienceScenarioLosses).state.bestValLossEpoch
      = 4 := by
  refine ⟨fun cfg v es s e => runEpochs_stoppedAt_some cfg v es s e,
    fun cfg v es s => runEpochs_stoppedAt_none cfg v es s, ?_, ?_⟩ <;> decide

/-- Concrete instantiation of C4: the scenario run stops at epoch 6, which is
therefore a processed epoch whose state satisfies the early-stopping test
while all earlier epochs fail it. -/
theorem C4_witness :
    ∃ pre post,
      (List.range patienceScenarioCfg.epochs).map (· + 1) =
          pre ++ 6 :: post ∧
        earlyStopCheck patienceScenarioCfg 6
          (foldEpochs patienceScenarioCfg patienceScenarioLosses (pre ++ [6])
            initState) ∧
        ∀ (p1 : List ℕ) (e' : ℕ) (p2 : List ℕ), pre = p1 ++ e' :: p2 →
          ¬ earlyStopCheck patienceScenarioCfg e'
            (foldEpochs patienceScenarioCfg patienceScenarioLosses
              (p1 ++ [e']) initState) :=
  C4_early_stopping.1 patienceScenarioCfg patienceScenarioLosses
    ((List.range patienceScenarioCfg.epochs).map (· + 1)) initState 6
    C4_early_stopping.2.2.1

theorem traverseOpt_some_of_forall {α β : Type} (f : α → Option β) :
    ∀ l : List α, (∀ i ∈ l, ∃ b, f i = some b) →
      ∃ outs, traverseOpt f l = some outs ∧ outs.length = l.length := by
  intro l
  induction l with
  | nil => intro _; exact ⟨[], rfl, rfl⟩
  | cons a t ih =>
    intro h
    obtain ⟨b, hb⟩ := h a (by simp)
    obtain ⟨outs, ho, hl⟩ := ih (fun i hi => h i (by simp [hi]))
    exact ⟨b :: outs, by simp [traverseOpt, hb, ho], by simp [hl]⟩

theorem collapse_props (a : ℕ) (l : List ℕ) :
    ∃ out, collapse (a :: l) = some out ∧ out ≠ [] ∧
      out.length ≤ (a :: l).length ∧ List.Chain' (· ≠ ·) out := by
  refine ⟨(a :: l).destutter (· ≠ ·), collapse_eq_destutter a l, ?_, ?_, ?_⟩
  · simp [List.destutter_eq_nil]
  · exact (List.destutter_sublist _ _).length_le
  · exact List.destutter_is_chain' _ _

/-- Claim C9: when the model output has at least one timestep, every batch
element's collapsed index sequence is non-empty, no longer than the time
dimension, and free of adjacent equal indices, and the decode succeeds with
one string per batch element; when the time dimension is 0 and the batch is
non-empty, `greedyDecode` fails on `raw_prediction[0]` instead of returning
an empty decode. -/
theorem C9_greedy_decode_shape (decodeFn : List ℕ → String)
    (predicted : List (List (List ℚ))) (batchN : ℕ) :
    (1 ≤ predicted.length →
      (∀ i : ℕ, ∃ out, collapse (rawPrediction predicted i) = some out ∧
        out ≠ [] ∧ out.length ≤ predicted.length ∧
        List.Chain' (· ≠ ·) out) ∧
      ∃ outs, greedyDecode decodeFn predicted batchN = some outs ∧
        outs.length = batchN) ∧
    (predicted.length = 0 → 1 ≤ batchN →
      greedyDecode decodeFn predicted batchN = none) := by
  constructor
  · intro hT
    have hraw : ∀ i : ℕ, ∃ out,
        collapse (rawPrediction predicted i) = some out ∧ out ≠ [] ∧
          out.length ≤ predicted.length ∧ List.Chain' (· ≠ ·) out := by
      intro i
      have hlen : (rawPrediction predicted i).length = predicted.length := by
        simp [rawPrediction]
      cases hr : rawPrediction predicted i with
      | nil => rw [hr] at hlen; simp at hlen; omega
      | cons a t =>
        obtain ⟨out, hout, hne, hle, hch⟩ := collapse_props a t
        exact ⟨out, hout, hne, by rw [← hlen, hr]; exact hle, hch⟩
    refine ⟨hraw, ?_⟩
    obtain ⟨outs, ho, hl⟩ := traverseOpt_some_of_forall
      (fun i => (collapse (rawPrediction predicted i)).map decodeFn)
      (List.range batchN)
      (fun i _ => by
        obtain ⟨out, hout, _⟩ := hraw i
        exact ⟨decodeFn out, by simp [hout]⟩)
    exact ⟨outs, ho, by rw [hl, List.length_range]⟩
  · intro hT hN
    obtain ⟨m, rfl⟩ : ∃ m, batchN = m + 1 :=
      ⟨batchN - 1, (Nat.succ_pred_eq_of_pos hN).symm⟩
    have hpred : predicted = [] := List.length_eq_zero.mp hT
    subst hpred
    rw [greedyDecode, List.range_succ_eq_map]
    simp [traverseOpt, rawPrediction, collapse]

/-- Concrete instantiation of C9: a (T=2, N=1, C=2) output decodes to one
string, the collapsed sequence for element 0 exists with the stated shape,
and a (T=0, N=1) output fails. -/
theorem C9_witness :
    (∃ out, collapse (rawPrediction [[[1, 0]], [[0, 2]]] 0) = some out ∧
      out ≠ [] ∧ out.length ≤ ([[[1, 0]], [[0, 2]]] :
        List (List (List ℚ))).length ∧ List.Chain' (· ≠ ·) out) ∧
    (∃ outs, greedyDecode (fun _ => "") [[[1, 0]], [[0, 2]]] 1 = some outs ∧
      outs.length = 1) ∧
    greedyDecode (fun _ => "") ([] : List (List (List ℚ))) 1 = none :=
  ⟨((C9_greedy_decode_shape (fun _ => "") [[[1, 0]], [[0, 2]]] 1).1
      (by simp)).1 0,
    ((C9_greedy_decode_shape (fun _ => "") [[[1, 0]], [[0, 2]]] 1).1
      (by simp)).2,
    (C9_greedy_decode_shape (fun _ => "") [] 1).2 rfl (by simp)⟩

theorem epochValidation_of_none (cfg : Config) (v : ℕ → Option ℚ) (e : ℕ)
    (s : TrainState) (h : v e = none) :
    epochValidation cfg v e s = (s, none) := by
  unfold epochValidation
  rw [h]
  split_ifs <;> simp [valUpdate]

theorem runEpochs_of_all_none (cfg : Config) (v : ℕ → Option ℚ)
    (hv : ∀ e, v e = none) :
    ∀ (es : List ℕ) (s : TrainState),
      (runEpochs cfg v es s).state = s ∧
        (runEpochs cfg v es s).ckptWrites = [] := by
  intro es
  induction es with
  | nil => intro s; exact ⟨rfl, rfl⟩
  | cons a rest ih =>
    intro s
    have he := epochValidation_of_none cfg v a s (hv a)
    by_cases hc : earlyStopCheck cfg a (epochValidation cfg v a s).1
    · rw [runEpochs, if_pos hc]
      rw [he]
      exact ⟨rfl, rfl⟩
    · rw [runEpochs, if_neg hc]
      have := ih (epochValidation cfg v a s).1
      rw [he] at this ⊢
      exact ⟨this.1, by simp [optToList, this.2]⟩

/-- Claim C10: with no eval batches, `np.mean` of the empty loss list is NaN,
the NaN comparison against `bestValLoss` is false, so across a whole run of
NaN validations the state never changes and the best-validation checkpoint is
never written; with at least one batch, `validate` returns the arithmetic
mean of the per-batch losses. -/
theorem C10_empty_loader_nan :
    validateResult [] = none ∧
    (∀ (s : TrainState) (e : ℕ), valUpdate s e none = (s, false)) ∧
    (∀ (cfg : Config) (v : ℕ → Option ℚ), (∀ e, v e = none) →
      ∀ (es : List ℕ) (s : TrainState),
        (runEpochs cfg v es s).state = s ∧
          (runEpochs cfg v es s).ckptWrites = []) ∧
    (∀ xs : List ℚ, xs ≠ [] →
      validateResult xs = some (xs.sum / xs.length)) := by
  refine ⟨rfl, fun s e => rfl, runEpochs_of_all_none, ?_⟩
  intro xs hxs
  simp [validateResult, npMean, hxs]

/-- Concrete instantiation of C10: a single-epoch run whose validation always
yields NaN leaves the fresh state untouched and writes nothing, and a
one-batch loss list averages to itself. -/
theorem C10_witness :
    (runEpochs ⟨1, 0, 1, 0, 1, 0, 0⟩ (fun _ => none) [1] initState).state =
        initState ∧
      (runEpochs ⟨1, 0, 1, 0, 1, 0, 0⟩ (fun _ => none) [1]
        initState).ckptWrites = [] ∧
      validateResult [2] =
        some (([2] : List ℚ).sum / ((([2] : List ℚ).length : ℕ) : ℚ)) :=
  ⟨(C10_empty_loader_nan.2.2.1 ⟨1, 0, 1, 0, 1, 0, 0⟩ (fun _ => none)
      (fun _ => rfl) [1] initState).1,
    (C10_empty_loader_nan.2.2.1 ⟨1, 0, 1, 0, 1, 0, 0⟩ (fun _ => none)
      (fun _ => rfl) [1] initState).2,
    C10_empty_loader_nan.2.2.2 [2] (by simp)⟩

end RunPy
